import Mathlib

/-!
# Verification of Tara's component registry and framed IPC protocol

Shallow embedding of the core of the Tara repository:

* `tara/src/componet.rs` — the interaction component registry
  (`ComponentInner`/`ComponentMap`): `insert`, `run`, `timeout` and the
  background `timeout_watcher` sweep.
* `tara-util/src/ipc/socket.rs` — the length-prefixed framed socket codec
  (`SocketExt::read_serde` / `SocketExt::write_serde`).
* `tara-util/src/ipc/mod.rs` — the IPC server loop (`start_server`) and the
  message vocabulary (`ActionMessage` / `ResponseMessage`).

Rust `HashMap`s are modelled as association lists (`List (CustomId × β)`);
`HashMap` iteration order is determinised to list order.  Async effectful
handler/cleanup functions are modelled as explicit state-passing functions
over an abstract world type `W`; the `(ComponentInteraction, CommandArguments)`
handler parameters and the `(Arc<Http>, Arc<Cache>)` cleanup context are
abstract types `P` and `C`.  Timestamps (`chrono::DateTime<Utc>`) are
modelled as `Nat` seconds; only their linear order is used by the code.
-/

namespace Tara

/-- `type CustomId = String;` from `componet.rs`. -/
abbrev CustomId := String

/-- `crate::Result<()>`: handlers and cleanups return `Result<(), Error>`;
the error payload is modelled as a `String`. -/
abbrev HandlerResult := Except String Unit

/-! ## Association lists modelling `std::collections::HashMap` -/

/-- `HashMap::get`: first value bound to `id`. -/
def lookupA {β : Type _} : List (CustomId × β) → CustomId → Option β
  | [], _ => none
  | (k, v) :: rest, id => if k = id then some v else lookupA rest id

/-- `HashMap::remove`'s effect on the map: drop the binding of `id`. -/
def eraseA {β : Type _} : List (CustomId × β) → CustomId → List (CustomId × β)
  | [], _ => []
  | (k, v) :: rest, id => if k = id then eraseA rest id else (k, v) :: eraseA rest id

/-- `HashMap::insert`: bind `id` to `v`, overwriting any previous binding. -/
def insertA {β : Type _} (m : List (CustomId × β)) (id : CustomId) (v : β) :
    List (CustomId × β) :=
  (id, v) :: eraseA m id

@[simp] theorem lookupA_nil {β : Type _} (id : CustomId) :
    lookupA ([] : List (CustomId × β)) id = none := rfl

@[simp] theorem lookupA_cons {β : Type _} (k : CustomId) (v : β)
    (rest : List (CustomId × β)) (id : CustomId) :
    lookupA ((k, v) :: rest) id = if k = id then some v else lookupA rest id := rfl

@[simp] theorem lookupA_eraseA_self {β : Type _} (m : List (CustomId × β)) (id : CustomId) :
    lookupA (eraseA m id) id = none := by
  induction m with
  | nil => rfl
  | cons p rest ih =>
    obtain ⟨k, v⟩ := p
    by_cases h : k = id <;> simp [eraseA, h, ih]

theorem lookupA_eraseA_ne {β : Type _} (m : List (CustomId × β)) (id id' : CustomId)
    (h : id' ≠ id) : lookupA (eraseA m id) id' = lookupA m id' := by
  induction m with
  | nil => rfl
  | cons p rest ih =>
    obtain ⟨k, v⟩ := p
    by_cases hk : k = id
    · subst hk
      simp [eraseA, Ne.symm h, ih]
    · by_cases hk' : k = id' <;> simp [eraseA, hk, hk', h, ih]

@[simp] theorem lookupA_insertA_self {β : Type _} (m : List (CustomId × β))
    (id : CustomId) (v : β) : lookupA (insertA m id v) id = some v := by
  simp [insertA]

theorem lookupA_insertA_ne {β : Type _} (m : List (CustomId × β)) (id id' : CustomId)
    (v : β) (h : id' ≠ id) : lookupA (insertA m id v) id' = lookupA m id' := by
  simp [insertA, Ne.symm h, lookupA_eraseA_ne m id id' h]

theorem mem_of_lookupA_eq_some {β : Type _} {m : List (CustomId × β)} {id : CustomId}
    {v : β} (h : lookupA m id = some v) : (id, v) ∈ m := by
  induction m with
  | nil => simp [lookupA] at h
  | cons p rest ih =>
    obtain ⟨k, w⟩ := p
    rw [lookupA_cons] at h
    split at h
    · next hk =>
      injection h with h
      subst hk; subst h
      exact List.mem_cons_self _ _
    · exact List.mem_cons_of_mem _ (ih h)

theorem lookupA_eq_none_of_not_mem_keys {β : Type _} {m : List (CustomId × β)}
    {id : CustomId} (h : id ∉ m.map Prod.fst) : lookupA m id = none := by
  induction m with
  | nil => rfl
  | cons p rest ih =>
    obtain ⟨k, v⟩ := p
    simp only [List.map_cons, List.mem_cons, not_or] at h
    simp [lookupA, Ne.symm h.1, ih h.2]

theorem eraseA_sublist {β : Type _} (m : List (CustomId × β)) (id : CustomId) :
    (eraseA m id).Sublist m := by
  induction m with
  | nil => exact List.Sublist.refl _
  | cons p rest ih =>
    obtain ⟨k, v⟩ := p
    simp only [eraseA]
    split
    · exact ih.cons (k, v)
    · exact ih.cons₂ (k, v)

theorem mem_of_mem_eraseA {β : Type _} {m : List (CustomId × β)} {id : CustomId}
    {p : CustomId × β} (h : p ∈ eraseA m id) : p ∈ m :=
  (eraseA_sublist m id).mem h

theorem keys_eraseA_sublist {β : Type _} (m : List (CustomId × β)) (id : CustomId) :
    ((eraseA m id).map Prod.fst).Sublist (m.map Prod.fst) :=
  (eraseA_sublist m id).map Prod.fst

theorem keys_nodup_eraseA {β : Type _} {m : List (CustomId × β)} (id : CustomId)
    (h : (m.map Prod.fst).Nodup) : ((eraseA m id).map Prod.fst).Nodup :=
  (keys_eraseA_sublist m id).nodup h

theorem mem_eraseA_ne {β : Type _} {m : List (CustomId × β)} {id : CustomId}
    {p : CustomId × β} (h : p ∈ eraseA m id) : p.1 ≠ id := by
  induction m with
  | nil => simp [eraseA] at h
  | cons q rest ih =>
    obtain ⟨k, v⟩ := q
    simp only [eraseA] at h
    split at h
    · exact ih h
    · next hk =>
      rcases List.mem_cons.mp h with h | h
      · subst h; exact hk
      · exact ih h

theorem not_mem_keys_eraseA {β : Type _} (m : List (CustomId × β)) (id : CustomId) :
    id ∉ (eraseA m id).map Prod.fst := by
  intro hmem
  obtain ⟨p, hp, hk⟩ := List.mem_map.mp hmem
  exact mem_eraseA_ne hp hk

theorem keys_nodup_insertA {β : Type _} {m : List (CustomId × β)} (id : CustomId)
    (v : β) (h : (m.map Prod.fst).Nodup) :
    ((insertA m id v).map Prod.fst).Nodup := by
  simp only [insertA, List.map_cons, List.nodup_cons]
  exact ⟨not_mem_keys_eraseA m id, keys_nodup_eraseA id h⟩

/-! ## The component registry (`tara/src/componet.rs`)

A map entry `(ComponentFn, Option<CleanupFn>)` is a `Registration P C W`:
the handler `ComponentFn = AsyncFn<(ComponentInteraction, CommandArguments), Result<()>>`
becomes a state-passing function `P → W → W × HandlerResult`, and the optional
`CleanupFn = AsyncFn<(CustomId, Arc<Http>, Arc<Cache>), Result<()>>` becomes
`CustomId → C → W → W × HandlerResult`.  `W` is the world the async effects
act on (e.g. a counter incremented by a cleanup). -/

/-- One value of `ComponentInner.component_map`: the stored
`(ComponentFn, Option<CleanupFn>)` pair. -/
structure Registration (P C W : Type) where
  handler : P → W → W × HandlerResult
  cleanup : Option (CustomId → C → W → W × HandlerResult)

/-- `ComponentInner`: `component_map: RwLock<HashMap<CustomId, (ComponentFn,
Option<CleanupFn>)>>` and `timeout_map: Mutex<HashMap<CustomId, DateTime<Utc>>>`.
The locks serialise accesses; the sequential model keeps the two maps. -/
structure ComponentState (P C W : Type) where
  component_map : List (CustomId × Registration P C W)
  timeout_map   : List (CustomId × Nat)

/-- `Duration::minutes(10)` added to `Utc::now()` by `ComponentInner::insert`,
in seconds. -/
def defaultTtlSeconds : Nat := 10 * 60

/-- `ComponentInner::insert` (also `ComponentMap::insert`): overwrite the
`component_map` binding of `id` with `(f, cf)` and the `timeout_map` binding
with `now + Duration::minutes(10)`. -/
def ComponentState.insert {P C W : Type} (s : ComponentState P C W) (id : CustomId)
    (f : P → W → W × HandlerResult)
    (cf : Option (CustomId → C → W → W × HandlerResult)) (now : Nat) :
    ComponentState P C W :=
  { component_map := insertA s.component_map id ⟨f, cf⟩
    timeout_map   := insertA s.timeout_map id (now + defaultTtlSeconds) }

/-- `ComponentInner::run` (also `ComponentMap::run`): look `id` up under a read
lock; `None` if absent, otherwise invoke the stored handler on `params` and
return its result in `Some`.  Result: `(returned Option, world after, state
after)` — the code takes only a read guard, so the state is returned as is. -/
def ComponentState.run {P C W : Type} (s : ComponentState P C W) (id : CustomId)
    (params : P) (w : W) : Option HandlerResult × W × ComponentState P C W :=
  match lookupA s.component_map id with
  | none => (none, w, s)
  | some reg =>
    let r := reg.handler params w
    (some r.2, r.1, s)

/-- `ComponentMap::timeout`: `timeout_map.lock().await.insert(id, Utc::now())`. -/
def ComponentState.timeout {P C W : Type} (s : ComponentState P C W) (id : CustomId)
    (now : Nat) : ComponentState P C W :=
  { s with timeout_map := insertA s.timeout_map id now }

/-- The `for id in kill_list` loop of `ComponentMap::timeout_watcher`.  For each
id: `component_map.remove(&id)`; if the removed entry had a cleanup, run it and
propagate its error with `?` (which skips the `timeout_map.remove` for that id
and all remaining ids); otherwise `timeout_map.remove(&id)` and continue.
Returns `(state, world, ids whose cleanup was invoked, error returned by ?)`. -/
def sweepGo {P C W : Type} (ctx : C) :
    List CustomId → ComponentState P C W → W → List CustomId →
    ComponentState P C W × W × List CustomId × Option String
  | [], s, w, fired => (s, w, fired, none)
  | id :: rest, s, w, fired =>
    match lookupA s.component_map id with
    | some reg =>
      let s1 : ComponentState P C W :=
        { s with component_map := eraseA s.component_map id }
      match reg.cleanup with
      | some cl =>
        match cl id ctx w with
        | (w', Except.error e) => (s1, w', fired ++ [id], some e)
        | (w', Except.ok _) =>
          sweepGo ctx rest
            { s1 with timeout_map := eraseA s1.timeout_map id } w' (fired ++ [id])
      | none =>
        sweepGo ctx rest
          { s1 with timeout_map := eraseA s1.timeout_map id } w fired
    | none =>
      sweepGo ctx rest
        { s with timeout_map := eraseA s.timeout_map id } w fired

/-- The kill-list computed at the top of each watcher iteration:
ids of `timeout_map` entries with `*time <= now`, in map order. -/
def killList (tm : List (CustomId × Nat)) (now : Nat) : List CustomId :=
  (tm.filter fun p => decide (p.2 ≤ now)).map Prod.fst

/-- One pass of the `loop` body of `ComponentMap::timeout_watcher`: take
`now = Utc::now()`, compute the kill-list of ids whose stored time is `≤ now`
under the `timeout_map` lock, then process it with `sweepGo`. -/
def sweepPass {P C W : Type} (s : ComponentState P C W) (now : Nat) (ctx : C)
    (w : W) : ComponentState P C W × W × List CustomId × Option String :=
  sweepGo ctx (killList s.timeout_map now) s w []

/-- `ComponentMap::timeout_watcher` observed at a finite list of pass times:
run one sweep pass per tick; an error returned by a cleanup makes the whole
watcher return (the `?` inside the loop), ending all future passes. -/
def timeout_watcher {P C W : Type} (ctx : C) :
    List Nat → ComponentState P C W → W →
    ComponentState P C W × W × List CustomId × Option String
  | [], s, w => (s, w, [], none)
  | now :: rest, s, w =>
    match sweepPass s now ctx w with
    | (s', w', fired, some e) => (s', w', fired, some e)
    | (s', w', fired, none) =>
      let r := timeout_watcher ctx rest s' w'
      (r.1, r.2.1, fired ++ r.2.2.1, r.2.2.2)

/-! ### Characterisation of a sweep pass -/

/-- Does the map currently associate a cleanup function with `id`? -/
def hasCleanupM {P C W : Type} (m : List (CustomId × Registration P C W))
    (id : CustomId) : Bool :=
  ((lookupA m id).bind Registration.cleanup).isSome

/-- Every cleanup stored in `m` returns `Ok(())` whatever it is applied to
(with context `ctx`). -/
def NoFailCleanups {P C W : Type} (m : List (CustomId × Registration P C W))
    (ctx : C) : Prop :=
  ∀ p ∈ m, ∀ cl, p.2.cleanup = some cl → ∀ i w, (cl i ctx w).2 = Except.ok ()

theorem noFailCleanups_eraseA {P C W : Type}
    {m : List (CustomId × Registration P C W)} {ctx : C} (id : CustomId)
    (h : NoFailCleanups m ctx) : NoFailCleanups (eraseA m id) ctx :=
  fun p hp => h p (mem_of_mem_eraseA hp)

theorem hasCleanupM_eraseA_ne {P C W : Type}
    (m : List (CustomId × Registration P C W)) (id id' : CustomId)
    (h : id' ≠ id) : hasCleanupM (eraseA m id) id' = hasCleanupM m id' := by
  simp [hasCleanupM, lookupA_eraseA_ne m id id' h]

/-- What one run of the kill-list loop does when no cleanup fails: it never
aborts, fires exactly the cleanups of the listed ids that have one (in list
order), and removes exactly the listed ids from both maps. -/
theorem sweepGo_spec {P C W : Type} (ctx : C) (l : List CustomId)
    (s : ComponentState P C W) (w : W) (f0 : List CustomId)
    (hl : l.Nodup) (hok : NoFailCleanups s.component_map ctx) :
    ∃ s' w',
      sweepGo ctx l s w f0 =
        (s', w', f0 ++ l.filter (fun id => hasCleanupM s.component_map id), none) ∧
      (∀ id, lookupA s'.component_map id =
        if id ∈ l then none else lookupA s.component_map id) ∧
      (∀ id, lookupA s'.timeout_map id =
        if id ∈ l then none else lookupA s.timeout_map id) := by
  induction l generalizing s w f0 with
  | nil =>
    exact ⟨s, w, by simp [sweepGo], by simp, by simp⟩
  | cons id rest ih =>
    have hid_rest : id ∉ rest := (List.nodup_cons.mp hl).1
    have hrest : rest.Nodup := (List.nodup_cons.mp hl).2
    cases hcomp : lookupA s.component_map id with
    | none =>
      -- `component_map.remove(&id)` misses; only the timeout entry goes away
      set s2 : ComponentState P C W :=
        { s with timeout_map := eraseA s.timeout_map id } with hs2
      have hok2 : NoFailCleanups s2.component_map ctx := hok
      obtain ⟨s', w', heq, hcm, htm⟩ := ih s2 w f0 hrest hok2
      refine ⟨s', w', ?_, ?_, ?_⟩
      · have hfire : hasCleanupM s.component_map id = false := by
          simp [hasCleanupM, hcomp]
        have hfilter :
            rest.filter (fun i => hasCleanupM s2.component_map i) =
            rest.filter (fun i => hasCleanupM s.component_map i) := by
          simp [hs2]
        simp only [sweepGo, hcomp]
        rw [heq, hfilter]
        simp [hfire]
      · intro id0
        rw [hcm id0]
        by_cases h0 : id0 ∈ rest
        · simp [h0]
        · by_cases hid0 : id0 = id
          · subst hid0
            simp [h0, hcomp]
          · simp [h0, hid0, hs2]
      · intro id0
        rw [htm id0]
        by_cases h0 : id0 ∈ rest
        · simp [h0]
        · by_cases hid0 : id0 = id
          · subst hid0
            simp [h0, hs2]
          · simp [h0, hid0, hs2, lookupA_eraseA_ne _ _ _ hid0]
    | some reg =>
      cases hcl : reg.cleanup with
      | none =>
        set s2 : ComponentState P C W :=
          { component_map := eraseA s.component_map id
            timeout_map := eraseA s.timeout_map id } with hs2
        have hok2 : NoFailCleanups s2.component_map ctx :=
          noFailCleanups_eraseA id hok
        obtain ⟨s', w', heq, hcm, htm⟩ := ih s2 w f0 hrest hok2
        refine ⟨s', w', ?_, ?_, ?_⟩
        · have hfire : hasCleanupM s.component_map id = false := by
            simp [hasCleanupM, hcomp, hcl]
          have hfilter :
              rest.filter (fun i => hasCleanupM s2.component_map i) =
              rest.filter (fun i => hasCleanupM s.component_map i) := by
            refine List.filter_congr ?_
            intro x hx
            have hxid : x ≠ id := fun h => hid_rest (h ▸ hx)
            simp [hs2, hasCleanupM_eraseA_ne _ _ _ hxid]
          simp only [sweepGo, hcomp, hcl]
          rw [heq, hfilter]
          simp [hfire]
        · intro id0
          rw [hcm id0]
          by_cases h0 : id0 ∈ rest
          · simp [h0]
          · by_cases hid0 : id0 = id
            · subst hid0
              simp [h0, hs2]
            · simp [h0, hid0, hs2, lookupA_eraseA_ne _ _ _ hid0]
        · intro id0
          rw [htm id0]
          by_cases h0 : id0 ∈ rest
          · simp [h0]
          · by_cases hid0 : id0 = id
            · subst hid0
              simp [h0, hs2]
            · simp [h0, hid0, hs2, lookupA_eraseA_ne _ _ _ hid0]
      | some cl =>
        have hmem : (id, reg) ∈ s.component_map := mem_of_lookupA_eq_some hcomp
        have hokrun : (cl id ctx w).2 = Except.ok () := hok _ hmem cl hcl id w
        rcases hrun : cl id ctx w with ⟨wcl, rcl⟩
        rw [hrun] at hokrun
        simp only at hokrun
        subst hokrun
        set s2 : ComponentState P C W :=
          { component_map := eraseA s.component_map id
            timeout_map := eraseA s.timeout_map id } with hs2
        have hok2 : NoFailCleanups s2.component_map ctx :=
          noFailCleanups_eraseA id hok
        obtain ⟨s', w', heq, hcm, htm⟩ := ih s2 wcl (f0 ++ [id]) hrest hok2
        refine ⟨s', w', ?_, ?_, ?_⟩
        · have hfire : hasCleanupM s.component_map id = true := by
            simp [hasCleanupM, hcomp, hcl]
          have hfilter :
              rest.filter (fun i => hasCleanupM s2.component_map i) =
              rest.filter (fun i => hasCleanupM s.component_map i) := by
            refine List.filter_congr ?_
            intro x hx
            have hxid : x ≠ id := fun h => hid_rest (h ▸ hx)
            simp [hs2, hasCleanupM_eraseA_ne _ _ _ hxid]
          simp only [sweepGo, hcomp, hcl, hrun]
          rw [heq, hfilter]
          simp [hfire]
        · intro id0
          rw [hcm id0]
          by_cases h0 : id0 ∈ rest
          · simp [h0]
          · by_cases hid0 : id0 = id
            · subst hid0
              simp [h0, hs2]
            · simp [h0, hid0, hs2, lookupA_eraseA_ne _ _ _ hid0]
        · intro id0
          rw [htm id0]
          by_cases h0 : id0 ∈ rest
          · simp [h0]
          · by_cases hid0 : id0 = id
            · subst hid0
              simp [h0, hs2]
            · simp [h0, hid0, hs2, lookupA_eraseA_ne _ _ _ hid0]

theorem killList_nodup {tm : List (CustomId × Nat)} (now : Nat)
    (h : (tm.map Prod.fst).Nodup) : (killList tm now).Nodup :=
  ((tm.filter_sublist).map Prod.fst).nodup h

theorem mem_killList_of_lookupA {tm : List (CustomId × Nat)} {id : CustomId}
    {t now : Nat} (h : lookupA tm id = some t) (ht : t ≤ now) :
    id ∈ killList tm now := by
  have hmem : (id, t) ∈ tm := mem_of_lookupA_eq_some h
  have : (id, t) ∈ tm.filter fun p => decide (p.2 ≤ now) :=
    List.mem_filter.mpr ⟨hmem, by simpa using ht⟩
  exact List.mem_map.mpr ⟨(id, t), this, rfl⟩

theorem mem_keys_of_mem_killList {tm : List (CustomId × Nat)} {id : CustomId}
    {now : Nat} (h : id ∈ killList tm now) : id ∈ tm.map Prod.fst := by
  obtain ⟨p, hp, hk⟩ := List.mem_map.mp h
  exact hk ▸ List.mem_map.mpr ⟨p, (tm.filter_sublist).mem hp, rfl⟩

theorem lookupA_isSome_of_mem_keys {β : Type _} {m : List (CustomId × β)}
    {id : CustomId} (h : id ∈ m.map Prod.fst) : (lookupA m id).isSome := by
  induction m with
  | nil => simp at h
  | cons p rest ih =>
    obtain ⟨k, v⟩ := p
    by_cases hk : k = id
    · simp [lookupA, hk]
    · simp only [List.map_cons, List.mem_cons] at h
      rcases h with h | h
      · exact absurd h.symm hk
      · simp [lookupA, hk, ih h]

/-- Unconditionally (even across the abort-on-error path), every id whose
cleanup a kill-list run fires comes from the accumulator or the kill-list. -/
theorem sweepGo_fired_mem {P C W : Type} (ctx : C) (l : List CustomId)
    (s : ComponentState P C W) (w : W) (f0 : List CustomId) :
    ∀ x ∈ (sweepGo ctx l s w f0).2.2.1, x ∈ f0 ∨ x ∈ l := by
  induction l generalizing s w f0 with
  | nil =>
    intro x hx
    simp only [sweepGo] at hx
    exact Or.inl hx
  | cons id rest ih =>
    intro x hx
    simp only [sweepGo] at hx
    cases hcomp : lookupA s.component_map id with
    | none =>
      rw [hcomp] at hx
      simp only at hx
      rcases ih _ _ _ x hx with h | h
      · exact Or.inl h
      · exact Or.inr (List.mem_cons_of_mem _ h)
    | some reg =>
      rw [hcomp] at hx
      simp only at hx
      cases hcl : reg.cleanup with
      | none =>
        rw [hcl] at hx
        simp only at hx
        rcases ih _ _ _ x hx with h | h
        · exact Or.inl h
        · exact Or.inr (List.mem_cons_of_mem _ h)
      | some cl =>
        rw [hcl] at hx
        simp only at hx
        rcases hrun : cl id ctx w with ⟨w', r⟩
        rw [hrun] at hx
        cases r with
        | error e =>
          simp only at hx
          rcases List.mem_append.mp hx with h | h
          · exact Or.inl h
          · simp only [List.mem_singleton] at h
            exact Or.inr (h ▸ List.mem_cons_self _ _)
        | ok u =>
          simp only at hx
          rcases ih _ _ _ x hx with h | h
          · rcases List.mem_append.mp h with h | h
            · exact Or.inl h
            · simp only [List.mem_singleton] at h
              exact Or.inr (h ▸ List.mem_cons_self _ _)
          · exact Or.inr (List.mem_cons_of_mem _ h)

/-! ## Claims about the component registry -/

/-- C1: a registration's cleanup runs at most once over its lifetime.  With a
registration `id ↦ reg` carrying a cleanup and an expired timeout entry, and
no cleanup in the map failing, the first sweep pass fires `id`'s cleanup
exactly once (removing `id` from both maps together), and any later sweep pass
— at any time, in any world — never fires it again, so a counter incremented
by the cleanup ends at 1. -/
theorem claim_C1_cleanup_at_most_once {P C W : Type} (ctx : C)
    (s : ComponentState P C W) (w w' : W) (id : CustomId)
    (reg : Registration P C W)
    (cl : CustomId → C → W → W × HandlerResult) (t now now' : Nat)
    (hnd : (s.timeout_map.map Prod.fst).Nodup)
    (hcomp : lookupA s.component_map id = some reg)
    (hcl : reg.cleanup = some cl)
    (ht : lookupA s.timeout_map id = some t)
    (hexp : t ≤ now)
    (hok : NoFailCleanups s.component_map ctx) :
    ((sweepPass s now ctx w).2.2.1).count id = 1 ∧
    ((sweepPass (sweepPass s now ctx w).1 now' ctx w').2.2.1).count id = 0 := by
  obtain ⟨s1, w1, heq, hcm, htm⟩ :=
    sweepGo_spec ctx (killList s.timeout_map now) s w []
      (killList_nodup now hnd) hok
  have hpass : sweepPass s now ctx w =
      (s1, w1,
        (killList s.timeout_map now).filter
          (fun i => hasCleanupM s.component_map i), none) := by
    simpa [sweepPass] using heq
  have hmem : id ∈ killList s.timeout_map now := mem_killList_of_lookupA ht hexp
  constructor
  · rw [hpass]
    have hfire : hasCleanupM s.component_map id = true := by
      simp [hasCleanupM, hcomp, hcl]
    have hmemf : id ∈ (killList s.timeout_map now).filter
        (fun i => hasCleanupM s.component_map i) :=
      List.mem_filter.mpr ⟨hmem, hfire⟩
    have hnodupf : ((killList s.timeout_map now).filter
        (fun i => hasCleanupM s.component_map i)).Nodup :=
      (List.filter_sublist _).nodup (killList_nodup now hnd)
    exact List.count_eq_one_of_mem hnodupf hmemf
  · rw [hpass]
    have htid : lookupA s1.timeout_map id = none := by
      rw [htm id]
      simp [hmem]
    rw [List.count_eq_zero]
    intro hmem2
    simp only [sweepPass] at hmem2
    rcases sweepGo_fired_mem ctx (killList s1.timeout_map now') s1 w' [] id hmem2
      with h | h
    · simp at h
    · have hk := lookupA_isSome_of_mem_keys (mem_keys_of_mem_killList h)
      rw [htid] at hk
      simp at hk

/-- Closed witness for C1: a single registration with a cleanup, expired at
sweep time; its cleanup fires once on the first pass and never on a second. -/
theorem claim_C1_cleanup_at_most_once_witness :
    ((sweepPass
        (⟨[("btn", ⟨fun _ w => (w, Except.ok ()),
                    some (fun _ _ w => (w + 1, Except.ok ()))⟩)],
          [("btn", 3)]⟩ : ComponentState Unit Unit Nat) 5 () 0).2.2.1).count "btn" = 1 ∧
    ((sweepPass
        (sweepPass
          (⟨[("btn", ⟨fun _ w => (w, Except.ok ()),
                      some (fun _ _ w => (w + 1, Except.ok ()))⟩)],
            [("btn", 3)]⟩ : ComponentState Unit Unit Nat) 5 () 0).1 11 () 0).2.2.1).count "btn" = 0 :=
  claim_C1_cleanup_at_most_once () _ 0 0 "btn" _
    (fun _ _ w => (w + 1, Except.ok ())) 3 5 11
    (by simp) rfl rfl rfl (by norm_num)
    (by
      intro p hp cl hcl i w
      simp only [List.mem_singleton] at hp
      subst hp
      simp only [Option.some.injEq] at hcl
      subst hcl
      rfl)

/-- C6: `run` returns `None` when the id is absent (without invoking any
handler: the world is untouched), returns `Some` of the stored handler's
result when present, and in all cases leaves the registry state — both maps,
including `expires_at` — unchanged. -/
theorem claim_C6_run_is_lookup_only {P C W : Type}
    (s : ComponentState P C W) (id : CustomId) (p : P) (w : W) :
    (s.run id p w).2.2 = s ∧
    (s.run id p w).1 =
      (lookupA s.component_map id).map (fun reg => (reg.handler p w).2) ∧
    (lookupA s.component_map id = none → (s.run id p w).2.1 = w) := by
  refine ⟨?_, ?_, ?_⟩ <;>
    · cases h : lookupA s.component_map id <;>
        simp_all [ComponentState.run]

/-- Closed witness for C6: running a missing id on an empty registry yields
`none`, an untouched world and an unchanged state. -/
theorem claim_C6_run_is_lookup_only_witness :
    ((⟨[], []⟩ : ComponentState Unit Unit Nat).run "nonexistent" () 7).2.2 =
      (⟨[], []⟩ : ComponentState Unit Unit Nat) ∧
    ((⟨[], []⟩ : ComponentState Unit Unit Nat).run "nonexistent" () 7).1 = none ∧
    ((⟨[], []⟩ : ComponentState Unit Unit Nat).run "nonexistent" () 7).2.1 = 7 := by
  obtain ⟨h1, h2, h3⟩ :=
    claim_C6_run_is_lookup_only (⟨[], []⟩ : ComponentState Unit Unit Nat)
      "nonexistent" () 7
  exact ⟨h1, by simpa using h2, h3 rfl⟩

/-- C7: `timeout(id)` on a registration whose expiry `T` has not yet elapsed
(`now < T`) rewrites its `expires_at` to `now ≤ T`, and the next sweep pass —
at any `now' ≥ now` — removes the registration from both maps and fires its
cleanup, instead of waiting for `T`. -/
theorem claim_C7_timeout_preempts_expiry {P C W : Type} (ctx : C)
    (s : ComponentState P C W) (w : W) (id : CustomId)
    (reg : Registration P C W)
    (cl : CustomId → C → W → W × HandlerResult) (T now now' : Nat)
    (hnd : (s.timeout_map.map Prod.fst).Nodup)
    (hcomp : lookupA s.component_map id = some reg)
    (hcl : reg.cleanup = some cl)
    (hT : lookupA s.timeout_map id = some T)
    (hnotyet : now < T)
    (hok : NoFailCleanups s.component_map ctx)
    (hnow' : now ≤ now') :
    lookupA (s.timeout id now).timeout_map id = some now ∧ now ≤ T ∧
    id ∈ (sweepPass (s.timeout id now) now' ctx w).2.2.1 ∧
    lookupA ((sweepPass (s.timeout id now) now' ctx w).1).component_map id = none ∧
    lookupA ((sweepPass (s.timeout id now) now' ctx w).1).timeout_map id = none := by
  have hlook : lookupA (s.timeout id now).timeout_map id = some now := by
    simp [ComponentState.timeout]
  have hnd' : ((s.timeout id now).timeout_map.map Prod.fst).Nodup :=
    keys_nodup_insertA id now hnd
  have hok' : NoFailCleanups (s.timeout id now).component_map ctx := hok
  obtain ⟨s1, w1, heq, hcm, htm⟩ :=
    sweepGo_spec ctx (killList (s.timeout id now).timeout_map now')
      (s.timeout id now) w [] (killList_nodup now' hnd') hok'
  have hmem : id ∈ killList (s.timeout id now).timeout_map now' :=
    mem_killList_of_lookupA hlook hnow'
  have hpass : sweepPass (s.timeout id now) now' ctx w =
      (s1, w1,
        (killList (s.timeout id now).timeout_map now').filter
          (fun i => hasCleanupM (s.timeout id now).component_map i), none) := by
    simpa [sweepPass] using heq
  refine ⟨hlook, Nat.le_of_lt hnotyet, ?_, ?_, ?_⟩
  · rw [hpass]
    have hfire : hasCleanupM (s.timeout id now).component_map id = true := by
      simp [hasCleanupM, ComponentState.timeout, hcomp, hcl]
    exact List.mem_filter.mpr ⟨hmem, hfire⟩
  · rw [hpass]
    rw [hcm id]
    simp [hmem]
  · rw [hpass]
    rw [htm id]
    simp [hmem]

/-- Closed witness for C7: a registration expiring at 1000 is explicitly timed
out at 4; the sweep at 9 reaps it. -/
theorem claim_C7_timeout_preempts_expiry_witness :
    lookupA ((⟨[("btn", ⟨fun _ w => (w, Except.ok ()),
                    some (fun _ _ w => (w + 1, Except.ok ()))⟩)],
        [("btn", 1000)]⟩ : ComponentState Unit Unit Nat).timeout "btn" 4).timeout_map
        "btn" = some 4 ∧ 4 ≤ 1000 ∧
    "btn" ∈ (sweepPass
        ((⟨[("btn", ⟨fun _ w => (w, Except.ok ()),
                    some (fun _ _ w => (w + 1, Except.ok ()))⟩)],
          [("btn", 1000)]⟩ : ComponentState Unit Unit Nat).timeout "btn" 4) 9 () 0).2.2.1 ∧
    lookupA ((sweepPass
        ((⟨[("btn", ⟨fun _ w => (w, Except.ok ()),
                    some (fun _ _ w => (w + 1, Except.ok ()))⟩)],
          [("btn", 1000)]⟩ : ComponentState Unit Unit Nat).timeout "btn" 4) 9 () 0).1).component_map
        "btn" = none ∧
    lookupA ((sweepPass
        ((⟨[("btn", ⟨fun _ w => (w, Except.ok ()),
                    some (fun _ _ w => (w + 1, Except.ok ()))⟩)],
          [("btn", 1000)]⟩ : ComponentState Unit Unit Nat).timeout "btn" 4) 9 () 0).1).timeout_map
        "btn" = none :=
  claim_C7_timeout_preempts_expiry () _ 0 "btn" _
    (fun _ _ w => (w + 1, Except.ok ())) 1000 4 9
    (by simp) rfl rfl rfl (by norm_num)
    (by
      intro p hp cl hcl i w
      simp only [List.mem_singleton] at hp
      subst hp
      simp only [Option.some.injEq] at hcl
      subst hcl
      rfl)
    (by norm_num)

/-- C8: inserting `(id, h2, c2)` after an earlier `insert(id, h1, c1)` and
before the earlier registration expires overwrites the whole triple: the map
then binds `id` to `(h2, c2)` only, `run` invokes `h2`, and when the entry
expires the sweep fires exactly `c2` — the world after the sweep is the world
produced by `c2` alone, so `c1`'s effect never happens. -/
theorem claim_C8_insert_overwrites {P C W : Type} (ctx : C) (id : CustomId)
    (h1 h2 : P → W → W × HandlerResult)
    (c1 c2 : CustomId → C → W → W × HandlerResult)
    (t1 t2 now : Nat) (p : P) (w wr : W)
    (horder : t1 ≤ t2)
    (hbefore : t2 < t1 + defaultTtlSeconds)
    (hexp : t2 + defaultTtlSeconds ≤ now) :
    lookupA ((ComponentState.insert
        (ComponentState.insert (⟨[], []⟩ : ComponentState P C W) id h1 (some c1) t1)
        id h2 (some c2) t2).component_map) id = some ⟨h2, some c2⟩ ∧
    ((ComponentState.insert
        (ComponentState.insert (⟨[], []⟩ : ComponentState P C W) id h1 (some c1) t1)
        id h2 (some c2) t2).run id p wr).1 = some ((h2 p wr).2) ∧
    (sweepPass (ComponentState.insert
        (ComponentState.insert (⟨[], []⟩ : ComponentState P C W) id h1 (some c1) t1)
        id h2 (some c2) t2) now ctx w).2.2.1 = [id] ∧
    (sweepPass (ComponentState.insert
        (ComponentState.insert (⟨[], []⟩ : ComponentState P C W) id h1 (some c1) t1)
        id h2 (some c2) t2) now ctx w).2.1 = (c2 id ctx w).1 := by
  have hmap : (ComponentState.insert
      (ComponentState.insert (⟨[], []⟩ : ComponentState P C W) id h1 (some c1) t1)
      id h2 (some c2) t2).component_map = [(id, ⟨h2, some c2⟩)] := by
    simp [ComponentState.insert, insertA, eraseA]
  have htime : (ComponentState.insert
      (ComponentState.insert (⟨[], []⟩ : ComponentState P C W) id h1 (some c1) t1)
      id h2 (some c2) t2).timeout_map = [(id, t2 + defaultTtlSeconds)] := by
    simp [ComponentState.insert, insertA, eraseA]
  have hkill : killList (ComponentState.insert
      (ComponentState.insert (⟨[], []⟩ : ComponentState P C W) id h1 (some c1) t1)
      id h2 (some c2) t2).timeout_map now = [id] := by
    rw [htime]
    simp [killList, hexp]
  refine ⟨?_, ?_, ?_, ?_⟩
  · rw [hmap]; simp
  · simp [ComponentState.run, hmap]
  · simp only [sweepPass, hkill, sweepGo, hmap]
    simp only [lookupA_cons, if_pos rfl]
    rcases hrun : c2 id ctx w with ⟨w2, r2⟩
    cases r2 <;> simp [sweepGo, hrun]
  · simp only [sweepPass, hkill, sweepGo, hmap]
    simp only [lookupA_cons, if_pos rfl]
    rcases hrun : c2 id ctx w with ⟨w2, r2⟩
    cases r2 <;> simp [sweepGo, hrun]

/-- Closed witness for C8: two successive inserts under the same id; the sweep
fires only the second cleanup, whose world effect (counting in the second
component) is the one observed. -/
theorem claim_C8_insert_overwrites_witness :
    lookupA ((ComponentState.insert
        (ComponentState.insert (⟨[], []⟩ : ComponentState Unit Unit (Nat × Nat))
          "m1" (fun _ w => (w, Except.ok ()))
          (some (fun _ _ w => ((w.1 + 1, w.2), Except.ok ()))) 0)
        "m1" (fun _ w => (w, Except.ok ()))
        (some (fun _ _ w => ((w.1, w.2 + 1), Except.ok ()))) 1).component_map) "m1" =
      some ⟨fun _ w => (w, Except.ok ()),
        some (fun _ _ w => ((w.1, w.2 + 1), Except.ok ()))⟩ ∧
    ((ComponentState.insert
        (ComponentState.insert (⟨[], []⟩ : ComponentState Unit Unit (Nat × Nat))
          "m1" (fun _ w => (w, Except.ok ()))
          (some (fun _ _ w => ((w.1 + 1, w.2), Except.ok ()))) 0)
        "m1" (fun _ w => (w, Except.ok ()))
        (some (fun _ _ w => ((w.1, w.2 + 1), Except.ok ()))) 1).run "m1" () (0, 0)).1 =
      some (Except.ok ()) ∧
    (sweepPass (ComponentState.insert
        (ComponentState.insert (⟨[], []⟩ : ComponentState Unit Unit (Nat × Nat))
          "m1" (fun _ w => (w, Except.ok ()))
          (some (fun _ _ w => ((w.1 + 1, w.2), Except.ok ()))) 0)
        "m1" (fun _ w => (w, Except.ok ()))
        (some (fun _ _ w => ((w.1, w.2 + 1), Except.ok ()))) 1) 601 () (0, 0)).2.2.1 = ["m1"] ∧
    (sweepPass (ComponentState.insert
        (ComponentState.insert (⟨[], []⟩ : ComponentState Unit Unit (Nat × Nat))
          "m1" (fun _ w => (w, Except.ok ()))
          (some (fun _ _ w => ((w.1 + 1, w.2), Except.ok ()))) 0)
        "m1" (fun _ w => (w, Except.ok ()))
        (some (fun _ _ w => ((w.1, w.2 + 1), Except.ok ()))) 1) 601 () (0, 0)).2.1 = (0, 1) :=
  claim_C8_insert_overwrites () "m1"
    (fun _ w => (w, Except.ok ())) (fun _ w => (w, Except.ok ()))
    (fun _ _ w => ((w.1 + 1, w.2), Except.ok ()))
    (fun _ _ w => ((w.1, w.2 + 1), Except.ok ()))
    0 1 601 () (0, 0) (0, 0)
    (by norm_num) (by norm_num [defaultTtlSeconds]) (by norm_num [defaultTtlSeconds])

/-- Every id bound in the component (handler) map also has a timeout entry. -/
def MapsConsistent {P C W : Type} (s : ComponentState P C W) : Prop :=
  ∀ id, (lookupA s.component_map id).isSome → (lookupA s.timeout_map id).isSome

theorem mapsConsistent_sweepGo {P C W : Type} (ctx : C) (l : List CustomId)
    (s : ComponentState P C W) (w : W) (f0 : List CustomId)
    (hinv : MapsConsistent s) : MapsConsistent (sweepGo ctx l s w f0).1 := by
  induction l generalizing s w f0 with
  | nil => simpa [sweepGo] using hinv
  | cons id rest ih =>
    have herase : MapsConsistent
        { component_map := eraseA s.component_map id,
          timeout_map := eraseA s.timeout_map id : ComponentState P C W } := by
      intro id0 h0
      by_cases hid0 : id0 = id
      · subst hid0
        simp at h0
      · simp only [lookupA_eraseA_ne _ _ _ hid0] at h0 ⊢
        exact hinv id0 h0
    simp only [sweepGo]
    cases hcomp : lookupA s.component_map id with
    | none =>
      simp only
      have hkeep : MapsConsistent
          { s with timeout_map := eraseA s.timeout_map id } := by
        intro id0 h0
        by_cases hid0 : id0 = id
        · subst hid0
          simp only at h0
          rw [hcomp] at h0
          simp at h0
        · simp only [lookupA_eraseA_ne _ _ _ hid0]
          exact hinv id0 h0
      exact ih _ _ _ hkeep
    | some reg =>
      simp only
      cases hcl : reg.cleanup with
      | none =>
        simp only
        exact ih _ _ _ herase
      | some cl =>
        simp only
        rcases hrun : cl id ctx w with ⟨w2, r2⟩
        cases r2 with
        | error e =>
          simp only
          intro id0 h0
          simp only at h0
          by_cases hid0 : id0 = id
          · subst hid0
            simp at h0
          · simp only [lookupA_eraseA_ne _ _ _ hid0] at h0
            exact hinv id0 h0
        | ok u =>
          simp only
          exact ih _ _ _ herase

/-- C10: the "component map ⊆ timeout map" invariant is preserved by every
completed registry operation: `insert` (adds to both maps), `timeout` (only
adds/updates a timeout entry), every prefix of a sweep's kill-list loop (the
component entry is removed before — or together with — its timeout entry),
and hence a full sweep pass.  No handler registration can exist without an
expiry record. -/
theorem claim_C10_component_subset_timeout {P C W : Type} (ctx : C)
    (s : ComponentState P C W)
    (hinv : MapsConsistent s) :
    (∀ id f cf now, MapsConsistent (s.insert id f cf now)) ∧
    (∀ id now, MapsConsistent (s.timeout id now)) ∧
    (∀ l w f0, MapsConsistent (sweepGo ctx l s w f0).1) ∧
    (∀ now w, MapsConsistent (sweepPass s now ctx w).1) := by
  refine ⟨?_, ?_, ?_, ?_⟩
  · intro id f cf now id0 h0
    by_cases hid0 : id0 = id
    · subst hid0
      simp [ComponentState.insert]
    · simp only [ComponentState.insert, lookupA_insertA_ne _ _ _ _ hid0] at h0 ⊢
      exact hinv id0 h0
  · intro id now id0 h0
    by_cases hid0 : id0 = id
    · subst hid0
      simp [ComponentState.timeout]
    · simp only [ComponentState.timeout, lookupA_insertA_ne _ _ _ _ hid0]
      exact hinv id0 h0
  · intro l w f0
    exact mapsConsistent_sweepGo ctx l s w f0 hinv
  · intro now w
    exact mapsConsistent_sweepGo ctx _ s w [] hinv

/-- Closed witness for C10: the invariant holds for a one-entry registry and
is preserved by an insert, a timeout and a sweep pass. -/
theorem claim_C10_component_subset_timeout_witness :
    MapsConsistent
      ((⟨[("x", ⟨fun _ w => (w, Except.ok ()), none⟩)],
        [("x", 7)]⟩ : ComponentState Unit Unit Nat).insert "y"
        (fun _ w => (w, Except.ok ())) none 3) ∧
    MapsConsistent
      ((⟨[("x", ⟨fun _ w => (w, Except.ok ()), none⟩)],
        [("x", 7)]⟩ : ComponentState Unit Unit Nat).timeout "x" 0) ∧
    MapsConsistent
      (sweepPass (⟨[("x", ⟨fun _ w => (w, Except.ok ()), none⟩)],
        [("x", 7)]⟩ : ComponentState Unit Unit Nat) 9 () 0).1 := by
  have hinv : MapsConsistent
      (⟨[("x", ⟨fun _ w => (w, Except.ok ()), none⟩)],
        [("x", 7)]⟩ : ComponentState Unit Unit Nat) := by
    intro id0 h0
    by_cases hx : id0 = "x"
    · subst hx; simp
    · simp [lookupA, Ne.symm hx] at h0
  obtain ⟨h1, h2, _, h4⟩ :=
    claim_C10_component_subset_timeout ()
      (⟨[("x", ⟨fun _ w => (w, Except.ok ()), none⟩)],
        [("x", 7)]⟩ : ComponentState Unit Unit Nat) hinv
  exact ⟨h1 "y" (fun _ w => (w, Except.ok ())) none 3, h2 "x" 0, h4 9 0⟩

/-- A cleanup that always fails, recording in the world which ids it was
invoked for. -/
def failingCleanup : CustomId → Unit → List String → List String × HandlerResult :=
  fun i _ w => (w ++ [i], Except.error "cleanup failed")

/-- A handler that does nothing and succeeds. -/
def okHandler : Unit → List String → List String × HandlerResult :=
  fun _ w => (w, Except.ok ())

/-- A registry holding two expired registrations (both due at time 5) whose
cleanups fail. -/
def twoFailingState : ComponentState Unit Unit (List String) :=
  { component_map := [("a", ⟨okHandler, some failingCleanup⟩),
                      ("b", ⟨okHandler, some failingCleanup⟩)]
    timeout_map := [("a", 5), ("b", 5)] }

/-- C2 fails on the code: `timeout_watcher` propagates a cleanup's error with
`?`.  On a kill-list `["a", "b"]` where `"a"`'s cleanup fails, the pass stops
with the error after firing only `"a"`'s cleanup, leaving `"b"` registered
(and still due), and the watcher loop performs no further sweep passes. -/
theorem claim_C2_cleanup_error_aborts_watcher :
    (sweepPass twoFailingState 10 () []).2.2.2 = some "cleanup failed" ∧
    (sweepPass twoFailingState 10 () []).2.2.1 = ["a"] ∧
    lookupA ((sweepPass twoFailingState 10 () []).1).component_map "b" =
      some ⟨okHandler, some failingCleanup⟩ ∧
    (timeout_watcher () [10, 20] twoFailingState []).2.2.1 = ["a"] ∧
    (timeout_watcher () [10, 20] twoFailingState []).2.2.2 =
      some "cleanup failed" :=
  ⟨rfl, rfl, rfl, rfl, rfl⟩

/-! ## IPC messages and the framed socket codec
(`tara-util/src/ipc/mod.rs`, `tara-util/src/ipc/socket.rs`)

Byte streams are `List Nat` with each element a byte value.  The payload
serialization is `bincode` 1.x with its default options (little-endian,
fixed-width integers): enum variants as a `u32` index, `Option` and `bool`
as one byte, strings and sequences as a `u64` length followed by elements;
`chrono::DateTime<Utc>` serializes through serde as its RFC 3339 text, which
the model keeps as the opaque byte string the external crate produced. -/

/-- `IpcErr` (`tara-util/src/error.rs`): `Io(io::Error)` or
`Serialization(bincode::Error)`, payloads modelled as messages. -/
inductive IpcErr where
  | io (msg : String)
  | serialization (msg : String)
deriving DecidableEq

/-- A Rust `String` on the wire: its UTF-8 bytes. -/
abbrev WireString := List Nat

/-- `chrono::DateTime<Utc>` as serde sees it: the UTF-8 bytes of its
RFC 3339 rendering. -/
structure DateTimeUtc where
  rfc3339 : List Nat
deriving DecidableEq

/-- `LoggedCommandEvent` (`lib/tara-util/src/logging.rs`): name, time,
channel id (`NonZeroU64`), `(user name, user id)`, `called_from_guild`,
optional `(guild name, guild id)`. -/
structure LoggedCommandEvent where
  name : WireString
  time : DateTimeUtc
  channel_id : Nat
  user : WireString × Nat
  called_from_guild : Bool
  guild_info : Option (WireString × Nat)
deriving DecidableEq

/-- `ActionMessage` from `tara-util/src/ipc/mod.rs`. -/
inductive ActionMessage where
  | EndTransmission
  | NoOp
  | GetCommandLogs (upper_cutoff : Option DateTimeUtc) (lower_cutoff : DateTimeUtc)
deriving DecidableEq

/-- `ResponseMessage` from `tara-util/src/ipc/mod.rs` (the source spells the
first variant `TransmissonEnded`). -/
inductive ResponseMessage where
  | TransmissonEnded
  | ActionCompleted
  | ActionFailed (msg : WireString)
  | CommandLogs (logs : List LoggedCommandEvent)
deriving DecidableEq

/-- The four bytes of `n` as a little-endian `u32`. -/
def u32le (n : Nat) : List Nat :=
  [n % 256, n / 256 % 256, n / 256 ^ 2 % 256, n / 256 ^ 3 % 256]

/-- The eight bytes of `n` as a little-endian `u64`. -/
def u64le (n : Nat) : List Nat :=
  [n % 256, n / 256 % 256, n / 256 ^ 2 % 256, n / 256 ^ 3 % 256,
   n / 256 ^ 4 % 256, n / 256 ^ 5 % 256, n / 256 ^ 6 % 256, n / 256 ^ 7 % 256]

def serializeOption {α : Type} (f : α → List Nat) : Option α → List Nat
  | none => [0]
  | some x => 1 :: f x

def serializeBool : Bool → List Nat
  | false => [0]
  | true => [1]

/-- bincode string encoding: `u64` byte length, then the bytes. -/
def serializeString (s : WireString) : List Nat :=
  u64le s.length ++ s

/-- chrono's serde encoding of `DateTime<Utc>`: its RFC 3339 text as a
bincode string. -/
def serializeDateTime (d : DateTimeUtc) : List Nat :=
  serializeString d.rfc3339

def serializeGuild (p : WireString × Nat) : List Nat :=
  serializeString p.1 ++ u64le p.2

def serializeEvent (e : LoggedCommandEvent) : List Nat :=
  serializeString e.name ++ serializeDateTime e.time ++ u64le e.channel_id ++
    serializeString e.user.1 ++ u64le e.user.2 ++
    serializeBool e.called_from_guild ++
    serializeOption serializeGuild e.guild_info

/-- `bincode::serialize` of an `ActionMessage`: `u32` variant index, then the
variant's fields in declaration order. -/
def serializeAction : ActionMessage → List Nat
  | .EndTransmission => u32le 0
  | .NoOp => u32le 1
  | .GetCommandLogs upper lower =>
    u32le 2 ++ serializeOption serializeDateTime upper ++ serializeDateTime lower

/-- `bincode::serialize` of a `ResponseMessage`. -/
def serializeResponse : ResponseMessage → List Nat
  | .TransmissonEnded => u32le 0
  | .ActionCompleted => u32le 1
  | .ActionFailed m => u32le 2 ++ serializeString m
  | .CommandLogs logs =>
    u32le 3 ++ u64le logs.length ++ (logs.map serializeEvent).flatten

/-! Deserialization: parsers over byte lists returning the value and the
unconsumed bytes; failures are `IpcErr.serialization` (`bincode::Error`). -/

def parseU32 : List Nat → Except IpcErr (Nat × List Nat)
  | b0 :: b1 :: b2 :: b3 :: rest =>
    .ok (b0 + 256 * b1 + 256 ^ 2 * b2 + 256 ^ 3 * b3, rest)
  | _ => .error (.serialization "io error: unexpected end of file")

def parseU64 : List Nat → Except IpcErr (Nat × List Nat)
  | b0 :: b1 :: b2 :: b3 :: b4 :: b5 :: b6 :: b7 :: rest =>
    .ok (b0 + 256 * b1 + 256 ^ 2 * b2 + 256 ^ 3 * b3 + 256 ^ 4 * b4 +
      256 ^ 5 * b5 + 256 ^ 6 * b6 + 256 ^ 7 * b7, rest)
  | _ => .error (.serialization "io error: unexpected end of file")

def parseBytes (n : Nat) (s : List Nat) : Except IpcErr (List Nat × List Nat) :=
  if n ≤ s.length then .ok (s.take n, s.drop n)
  else .error (.serialization "io error: unexpected end of file")

def parseString (s : List Nat) : Except IpcErr (WireString × List Nat) := do
  let (n, s) ← parseU64 s
  parseBytes n s

def parseDateTime (s : List Nat) : Except IpcErr (DateTimeUtc × List Nat) := do
  let (b, s) ← parseString s
  .ok (⟨b⟩, s)

/-- bincode rejects a `NonZeroU64` wire value of `0`. -/
def parseNonZeroU64 (s : List Nat) : Except IpcErr (Nat × List Nat) := do
  let (n, s) ← parseU64 s
  if n = 0 then .error (.serialization "expected a non-zero value")
  else .ok (n, s)

def parseBool (s : List Nat) : Except IpcErr (Bool × List Nat) :=
  match s with
  | 0 :: rest => .ok (false, rest)
  | 1 :: rest => .ok (true, rest)
  | _ :: _ => .error (.serialization "invalid bool encoding")
  | [] => .error (.serialization "io error: unexpected end of file")

def parseOption {α : Type} (p : List Nat → Except IpcErr (α × List Nat))
    (s : List Nat) : Except IpcErr (Option α × List Nat) :=
  match s with
  | 0 :: rest => .ok (none, rest)
  | 1 :: rest => do
    let (x, rest) ← p rest
    .ok (some x, rest)
  | _ :: _ => .error (.serialization "invalid tag encoding")
  | [] => .error (.serialization "io error: unexpected end of file")

def parseGuild (s : List Nat) : Except IpcErr ((WireString × Nat) × List Nat) := do
  let (name, s) ← parseString s
  let (gid, s) ← parseNonZeroU64 s
  .ok ((name, gid), s)

def parseEvent (s : List Nat) : Except IpcErr (LoggedCommandEvent × List Nat) := do
  let (name, s) ← parseString s
  let (time, s) ← parseDateTime s
  let (channel_id, s) ← parseNonZeroU64 s
  let (userName, s) ← parseString s
  let (userId, s) ← parseNonZeroU64 s
  let (called_from_guild, s) ← parseBool s
  let (guild_info, s) ← parseOption parseGuild s
  .ok (⟨name, time, channel_id, (userName, userId), called_from_guild,
    guild_info⟩, s)

def parseCount {α : Type} (p : List Nat → Except IpcErr (α × List Nat)) :
    Nat → List Nat → Except IpcErr (List α × List Nat)
  | 0, s => .ok ([], s)
  | n + 1, s => do
    let (x, s) ← p s
    let (xs, s) ← parseCount p n s
    .ok (x :: xs, s)

/-- `bincode::deserialize` into an `ActionMessage`. -/
def parseAction (s : List Nat) : Except IpcErr (ActionMessage × List Nat) := do
  let (tag, s) ← parseU32 s
  match tag with
  | 0 => .ok (.EndTransmission, s)
  | 1 => .ok (.NoOp, s)
  | 2 => do
    let (upper, s) ← parseOption parseDateTime s
    let (lower, s) ← parseDateTime s
    .ok (.GetCommandLogs upper lower, s)
  | _ => .error (.serialization "invalid tag encoding")

/-- `bincode::deserialize` into a `ResponseMessage`. -/
def parseResponse (s : List Nat) : Except IpcErr (ResponseMessage × List Nat) := do
  let (tag, s) ← parseU32 s
  match tag with
  | 0 => .ok (.TransmissonEnded, s)
  | 1 => .ok (.ActionCompleted, s)
  | 2 => do
    let (m, s) ← parseString s
    .ok (.ActionFailed m, s)
  | 3 => do
    let (n, s) ← parseU64 s
    let (logs, s) ← parseCount parseEvent n s
    .ok (.CommandLogs logs, s)
  | _ => .error (.serialization "invalid tag encoding")

/-! ### Serialization round trips -/

/-- Wire sizes that fit their fixed-width fields. -/
def wfString (s : WireString) : Bool := decide (s.length < 2 ^ 64)

def wfDateTime (d : DateTimeUtc) : Bool := wfString d.rfc3339

/-- A valid `NonZeroU64` value. -/
def wfU64nz (n : Nat) : Bool := decide (0 < n) && decide (n < 2 ^ 64)

def wfGuild (p : WireString × Nat) : Bool := wfString p.1 && wfU64nz p.2

def wfEvent (e : LoggedCommandEvent) : Bool :=
  wfString e.name && wfDateTime e.time && wfU64nz e.channel_id &&
    wfString e.user.1 && wfU64nz e.user.2 &&
    (match e.guild_info with
     | none => true
     | some g => wfGuild g)

/-- An `ActionMessage` whose numeric/length fields fit their wire widths;
every value produced by the Rust types satisfies this. -/
def wfAction : ActionMessage → Bool
  | .EndTransmission => true
  | .NoOp => true
  | .GetCommandLogs upper lower =>
    (match upper with
     | none => true
     | some d => wfDateTime d) && wfDateTime lower

/-- A `ResponseMessage` whose numeric/length fields fit their wire widths. -/
def wfResponse : ResponseMessage → Bool
  | .TransmissonEnded => true
  | .ActionCompleted => true
  | .ActionFailed m => wfString m
  | .CommandLogs logs => decide (logs.length < 2 ^ 64) && logs.all wfEvent

@[simp] theorem ok_bind {ε α β : Type} (a : α) (f : α → Except ε β) :
    (Except.ok a >>= f : Except ε β) = f a := rfl

theorem parseU32_u32le (n : Nat) (rest : List Nat) (h : n < 2 ^ 32) :
    parseU32 (u32le n ++ rest) = .ok (n, rest) := by
  simp only [u32le, List.cons_append, List.nil_append, parseU32,
    Except.ok.injEq, Prod.mk.injEq]
  exact ⟨by omega, by trivial⟩

theorem parseU64_u64le (n : Nat) (rest : List Nat) (h : n < 2 ^ 64) :
    parseU64 (u64le n ++ rest) = .ok (n, rest) := by
  simp only [u64le, List.cons_append, List.nil_append, parseU64,
    Except.ok.injEq, Prod.mk.injEq]
  exact ⟨by omega, by trivial⟩

theorem parseBytes_append (l rest : List Nat) :
    parseBytes l.length (l ++ rest) = .ok (l, rest) := by
  simp [parseBytes]

theorem parseString_serializeString (s : WireString) (rest : List Nat)
    (h : wfString s = true) :
    parseString (serializeString s ++ rest) = .ok (s, rest) := by
  have hlen : s.length < 2 ^ 64 := by simpa [wfString] using h
  simp only [serializeString, List.append_assoc, parseString]
  rw [parseU64_u64le _ _ hlen]
  simpa using parseBytes_append s rest

theorem parseDateTime_serializeDateTime (d : DateTimeUtc) (rest : List Nat)
    (h : wfDateTime d = true) :
    parseDateTime (serializeDateTime d ++ rest) = .ok (d, rest) := by
  simp only [parseDateTime, serializeDateTime,
    parseString_serializeString d.rfc3339 rest h, ok_bind]

theorem parseNonZeroU64_u64le (n : Nat) (rest : List Nat) (h : wfU64nz n = true) :
    parseNonZeroU64 (u64le n ++ rest) = .ok (n, rest) := by
  have hw : 0 < n ∧ n < 2 ^ 64 := by simpa [wfU64nz] using h
  have hne : n ≠ 0 := Nat.pos_iff_ne_zero.mp hw.1
  simp [parseNonZeroU64, parseU64_u64le n rest hw.2, hne]

theorem parseBool_serializeBool (b : Bool) (rest : List Nat) :
    parseBool (serializeBool b ++ rest) = .ok (b, rest) := by
  cases b <;> simp [serializeBool, parseBool]

theorem parseOption_serializeOption {α : Type}
    (p : List Nat → Except IpcErr (α × List Nat)) (f : α → List Nat)
    (x : Option α) (rest : List Nat)
    (h : ∀ y, x = some y → p (f y ++ rest) = .ok (y, rest)) :
    parseOption p (serializeOption f x ++ rest) = .ok (x, rest) := by
  cases x with
  | none => simp [serializeOption, parseOption]
  | some y => simp [serializeOption, parseOption, h y rfl]

theorem parseGuild_serializeGuild (g : WireString × Nat) (rest : List Nat)
    (h : wfGuild g = true) :
    parseGuild (serializeGuild g ++ rest) = .ok (g, rest) := by
  have hw : wfString g.1 = true ∧ wfU64nz g.2 = true := by
    simpa [wfGuild] using h
  simp only [serializeGuild, List.append_assoc, parseGuild]
  rw [parseString_serializeString _ _ hw.1]
  simp only [ok_bind]
  rw [parseNonZeroU64_u64le _ _ hw.2]
  rfl

theorem parseEvent_serializeEvent (e : LoggedCommandEvent) (rest : List Nat)
    (h : wfEvent e = true) :
    parseEvent (serializeEvent e ++ rest) = .ok (e, rest) := by
  have hw := h
  simp only [wfEvent, Bool.and_eq_true] at hw
  obtain ⟨⟨⟨⟨⟨hname, htime⟩, hch⟩, huser⟩, huid⟩, hguild⟩ := hw
  simp only [serializeEvent, List.append_assoc, parseEvent]
  rw [parseString_serializeString _ _ hname]
  simp only [ok_bind]
  rw [parseDateTime_serializeDateTime _ _ htime]
  simp only [ok_bind]
  rw [parseNonZeroU64_u64le _ _ hch]
  simp only [ok_bind]
  rw [parseString_serializeString _ _ huser]
  simp only [ok_bind]
  rw [parseNonZeroU64_u64le _ _ huid]
  simp only [ok_bind]
  rw [parseBool_serializeBool]
  simp only [ok_bind]
  rw [parseOption_serializeOption parseGuild serializeGuild e.guild_info rest ?hg]
  · rfl
  case hg =>
    intro y hy
    refine parseGuild_serializeGuild y rest ?_
    rw [hy] at hguild
    simpa using hguild

theorem parseCount_roundtrip {α : Type}
    (p : List Nat → Except IpcErr (α × List Nat)) (f : α → List Nat)
    (l : List α) (rest : List Nat)
    (h : ∀ x ∈ l, ∀ r, p (f x ++ r) = .ok (x, r)) :
    parseCount p l.length ((l.map f).flatten ++ rest) = .ok (l, rest) := by
  induction l with
  | nil => simp [parseCount]
  | cons x xs ih =>
    simp only [List.map_cons, List.flatten_cons, List.length_cons,
      List.append_assoc, parseCount]
    rw [h x (List.mem_cons_self _ _) _]
    simp only [ok_bind]
    rw [ih (fun y hy r => h y (List.mem_cons_of_mem _ hy) r)]
    rfl

theorem parseAction_serializeAction (a : ActionMessage) (rest : List Nat)
    (h : wfAction a = true) :
    parseAction (serializeAction a ++ rest) = .ok (a, rest) := by
  cases a with
  | EndTransmission =>
    simp [serializeAction, parseAction,
      parseU32_u32le 0 rest (by norm_num : (0 : Nat) < 2 ^ 32)]
  | NoOp =>
    simp [serializeAction, parseAction,
      parseU32_u32le 1 rest (by norm_num : (1 : Nat) < 2 ^ 32)]
  | GetCommandLogs upper lower =>
    simp only [wfAction, Bool.and_eq_true] at h
    have hu : parseOption parseDateTime
        (serializeOption serializeDateTime upper ++
          (serializeDateTime lower ++ rest)) =
        .ok (upper, serializeDateTime lower ++ rest) := by
      refine parseOption_serializeOption _ _ _ _ ?_
      intro y hy
      refine parseDateTime_serializeDateTime y _ ?_
      rw [hy] at h
      simpa using h.1
    have hl : parseDateTime (serializeDateTime lower ++ rest) =
        .ok (lower, rest) := parseDateTime_serializeDateTime _ _ h.2
    simp [serializeAction, parseAction, List.append_assoc,
      parseU32_u32le 2 _ (by norm_num : (2 : Nat) < 2 ^ 32), hu, hl]

theorem parseResponse_serializeResponse (r : ResponseMessage) (rest : List Nat)
    (h : wfResponse r = true) :
    parseResponse (serializeResponse r ++ rest) = .ok (r, rest) := by
  cases r with
  | TransmissonEnded =>
    simp [serializeResponse, parseResponse,
      parseU32_u32le 0 rest (by norm_num : (0 : Nat) < 2 ^ 32)]
  | ActionCompleted =>
    simp [serializeResponse, parseResponse,
      parseU32_u32le 1 rest (by norm_num : (1 : Nat) < 2 ^ 32)]
  | ActionFailed m =>
    simp only [wfResponse] at h
    have hm : parseString (serializeString m ++ rest) = .ok (m, rest) :=
      parseString_serializeString _ _ h
    simp [serializeResponse, parseResponse, List.append_assoc,
      parseU32_u32le 2 _ (by norm_num : (2 : Nat) < 2 ^ 32), hm]
  | CommandLogs logs =>
    simp only [wfResponse, Bool.and_eq_true] at h
    have hn : parseU64 (u64le logs.length ++
        ((logs.map serializeEvent).flatten ++ rest)) =
        .ok (logs.length, (logs.map serializeEvent).flatten ++ rest) :=
      parseU64_u64le _ _ (by simpa using h.1)
    have hc : parseCount parseEvent logs.length
        ((logs.map serializeEvent).flatten ++ rest) = .ok (logs, rest) := by
      refine parseCount_roundtrip parseEvent serializeEvent logs rest ?_
      intro x hx rr
      refine parseEvent_serializeEvent x rr ?_
      have hall := h.2
      rw [List.all_eq_true] at hall
      exact hall x hx
    simp [serializeResponse, parseResponse, List.append_assoc,
      parseU32_u32le 3 _ (by norm_num : (3 : Nat) < 2 ^ 32), hn, hc]

/-! ### The framed codec (`tara-util/src/ipc/socket.rs`) -/

/-- `u32::MAX`. -/
def u32Max : Nat := 2 ^ 32 - 1

/-- `SocketExt::write_serde`: serialize, write the serialized length as a
little-endian `u32`, then write the payload.  `u32::try_from(bytes.len())
.unwrap()` panics when the length exceeds `u32::MAX`; the panic is the `none`
outcome.  The produced frame is the byte stream appended to the socket. -/
def write_serde {α : Type} (ser : α → List Nat) (data : α) : Option (List Nat) :=
  let bytes := ser data
  if bytes.length ≤ u32Max then some (u32le bytes.length ++ bytes) else none

/-- `SocketExt::read_serde`: read 4 bytes as a little-endian `u32` size, read
exactly `size` bytes, deserialize.  Consumes from the front of the byte
stream and returns the decoded value plus the unconsumed stream; a stream
that ends early is an `IpcErr::Io` from `read_exact`. -/
def read_serde {α : Type} (de : List Nat → Except IpcErr (α × List Nat))
    (stream : List Nat) : Except IpcErr (α × List Nat) :=
  match stream with
  | b0 :: b1 :: b2 :: b3 :: rest =>
    let size := b0 + 256 * b1 + 256 ^ 2 * b2 + 256 ^ 3 * b3
    if size ≤ rest.length then
      match de (rest.take size) with
      | .ok (v, _) => .ok (v, rest.drop size)
      | .error e => .error e
    else .error (.io "failed to fill whole buffer")
  | _ => .error (.io "failed to fill whole buffer")

/-- Reading a frame laid out as `u32le length ++ payload ++ rest` decodes the
payload with `de` and leaves `rest`, provided the length fits a `u32`. -/
theorem read_serde_frame {α : Type} (de : List Nat → Except IpcErr (α × List Nat))
    (payload rest : List Nat) (v : α) (left : List Nat)
    (hlen : payload.length ≤ u32Max)
    (hde : de payload = .ok (v, left)) :
    read_serde de ((u32le payload.length ++ payload) ++ rest) = .ok (v, rest) := by
  have hlt : payload.length < 2 ^ 32 := by
    simp only [u32Max] at hlen
    omega
  have hsize : payload.length % 256 + 256 * (payload.length / 256 % 256) +
      256 ^ 2 * (payload.length / 256 ^ 2 % 256) +
      256 ^ 3 * (payload.length / 256 ^ 3 % 256) = payload.length := by omega
  simp only [u32le, List.cons_append, List.nil_append, read_serde, hsize,
    List.append_assoc]
  rw [if_pos (by simp)]
  rw [List.take_left, List.drop_left]
  rw [hde]

/-- C4: framing round-trip.  For every `ActionMessage` and `ResponseMessage`
whose serialized payload fits a `u32` length (all wire-representable values
do), reading a stream holding exactly the frame written for the value yields
the value back: `read_serde ∘ write_serde = id`. -/
theorem claim_C4_framing_round_trip (a : ActionMessage) (r : ResponseMessage)
    (ha : wfAction a = true) (hr : wfResponse r = true)
    (hla : (serializeAction a).length ≤ u32Max)
    (hlr : (serializeResponse r).length ≤ u32Max) :
    (∃ fr, write_serde serializeAction a = some fr ∧
      read_serde parseAction fr = .ok (a, [])) ∧
    (∃ fr, write_serde serializeResponse r = some fr ∧
      read_serde parseResponse fr = .ok (r, [])) := by
  constructor
  · refine ⟨u32le (serializeAction a).length ++ serializeAction a, ?_, ?_⟩
    · simp [write_serde, hla]
    · have := read_serde_frame parseAction (serializeAction a) [] a []
        hla (by simpa using parseAction_serializeAction a [] ha)
      simpa using this
  · refine ⟨u32le (serializeResponse r).length ++ serializeResponse r, ?_, ?_⟩
    · simp [write_serde, hlr]
    · have := read_serde_frame parseResponse (serializeResponse r) [] r []
        hlr (by simpa using parseResponse_serializeResponse r [] hr)
      simpa using this

/-- Closed witness for C4: a `GetCommandLogs` request and a `CommandLogs`
response survive the frame round trip. -/
theorem claim_C4_framing_round_trip_witness :
    (∃ fr, write_serde serializeAction
        (ActionMessage.GetCommandLogs none ⟨[50, 48, 50, 52]⟩) = some fr ∧
      read_serde parseAction fr =
        .ok (ActionMessage.GetCommandLogs none ⟨[50, 48, 50, 52]⟩, [])) ∧
    (∃ fr, write_serde serializeResponse
        (ResponseMessage.CommandLogs
          [⟨[116], ⟨[50]⟩, 3, ([117], 9), true, some ([103], 4)⟩]) = some fr ∧
      read_serde parseResponse fr =
        .ok (ResponseMessage.CommandLogs
          [⟨[116], ⟨[50]⟩, 3, ([117], 9), true, some ([103], 4)⟩], [])) :=
  claim_C4_framing_round_trip
    (ActionMessage.GetCommandLogs none ⟨[50, 48, 50, 52]⟩)
    (ResponseMessage.CommandLogs
      [⟨[116], ⟨[50]⟩, 3, ([117], 9), true, some ([103], 4)⟩])
    (by decide) (by decide) (by decide) (by decide)

/-- The value a 4-byte little-endian prefix denotes. -/
def u32leVal : List Nat → Nat
  | b0 :: b1 :: b2 :: b3 :: _ => b0 + 256 * b1 + 256 ^ 2 * b2 + 256 ^ 3 * b3
  | _ => 0

/-- C9: `write_serde` emits exactly a 4-byte little-endian length prefix whose
value equals the payload length, followed by the payload, whenever the
serialized length fits `u32::MAX`; a longer serialization panics
(`u32::try_from(..).unwrap()`), and under the size precondition that branch is
unreachable (the result is `some`). -/
theorem claim_C9_write_serde_frame_layout {α : Type} (ser : α → List Nat)
    (data : α) :
    ((ser data).length ≤ u32Max →
      write_serde ser data = some (u32le (ser data).length ++ ser data) ∧
      (u32le (ser data).length).length = 4 ∧
      u32leVal (u32le (ser data).length ++ ser data) = (ser data).length ∧
      (u32le (ser data).length ++ ser data).drop 4 = ser data) ∧
    (u32Max < (ser data).length → write_serde ser data = none) := by
  constructor
  · intro hlen
    refine ⟨by simp [write_serde, hlen], by simp [u32le], ?_, ?_⟩
    · have hlt : (ser data).length < 2 ^ 32 := by
        simp only [u32Max] at hlen
        omega
      simp only [u32le, List.cons_append, List.nil_append, u32leVal]
      omega
    · simp [u32le]
  · intro hlen
    simp [write_serde, Nat.not_le.mpr hlen]

/-- Closed witness for C9: the frame for `NoOp` (payload `[1, 0, 0, 0]`) is
its 4-byte length prefix `[4, 0, 0, 0]` followed by the payload. -/
theorem claim_C9_write_serde_frame_layout_witness :
    write_serde serializeAction ActionMessage.NoOp =
      some ([4, 0, 0, 0] ++ [1, 0, 0, 0]) ∧
    u32leVal ([4, 0, 0, 0] ++ [1, 0, 0, 0]) = 4 := by
  obtain ⟨hsome, _⟩ :=
    claim_C9_write_serde_frame_layout serializeAction ActionMessage.NoOp
  obtain ⟨h1, _, h3, _⟩ := hsome (by decide)
  exact ⟨by simpa using h1, by simpa using h3⟩

/-! ## The IPC server loop (`start_server` in `tara-util/src/ipc/mod.rs`)

The loop is driven by what arrives on the socket; a run is observed against a
finite script of accept events, each successful accept carrying the sequence
of read outcomes its connection will produce.  Write failures take the same
`?` path as read failures and are subsumed by the `fail` event. -/

/-- One `read_serde::<ActionMessage>` outcome on a connection: a decoded
frame, or an `IpcErr` (transport or deserialization failure). -/
inductive ReadEvent where
  | frame (a : ActionMessage)
  | fail (e : IpcErr)

/-- How a connection's inner loop ends: `ended` by `EndTransmission`,
`errored` by a read/write failure (which the `?` propagates out of
`start_server`), or `blocked` still waiting for a next frame. -/
inductive ConnOutcome where
  | ended
  | errored (e : IpcErr)
  | blocked
deriving DecidableEq

/-- The inner `loop` of `start_server`: read an action (a failure propagates);
on `EndTransmission` write `TransmissonEnded` and break; otherwise write
`perform(action)` and continue.  Returns the responses written in order, the
outcome, and the events left unread on the connection. -/
def runConnection (perform : ActionMessage → ResponseMessage) :
    List ReadEvent → List ResponseMessage × ConnOutcome × List ReadEvent
  | [] => ([], .blocked, [])
  | .fail e :: rest => ([], .errored e, rest)
  | .frame a :: rest =>
    if a = ActionMessage.EndTransmission then
      ([ResponseMessage.TransmissonEnded], .ended, rest)
    else
      let r := runConnection perform rest
      (perform a :: r.1, r.2)

/-- One iteration of `start_server`'s outer `loop`: a failed accept, or an
accepted connection with its scripted reads. -/
inductive AcceptEvent where
  | acceptFail
  | conn (events : List ReadEvent)

/-- `start_server` after a successful bind, observed on a finite script:
accept failures are logged and the loop continues; an accepted connection
runs the inner loop; if that loop ends with an error, the `?` makes
`start_server` return it.  Result: responses per served connection, and the
error `start_server` returned (if any). -/
def start_server (perform : ActionMessage → ResponseMessage) :
    List AcceptEvent → List (List ResponseMessage) × Option IpcErr
  | [] => ([], none)
  | .acceptFail :: rest => start_server perform rest
  | .conn evts :: rest =>
    let c := runConnection perform evts
    match c.2.1 with
    | .ended =>
      let r := start_server perform rest
      (c.1 :: r.1, r.2)
    | .errored e => ([c.1], some e)
    | .blocked => ([c.1], none)

/-- The `ActionMessageReceiver` the bot installs (`tara/src/ipc.rs`): `NoOp`
completes; `EndTransmission` never reaches `perform`; other actions answer
with logs or a failure — irrelevant here, represented by `ActionFailed`. -/
def noOpReceiver : ActionMessage → ResponseMessage
  | .NoOp => .ActionCompleted
  | _ => .ActionFailed []

/-- C3 fails on the code: a read failure inside a connection's inner loop is
propagated by `?` out of `start_server`, killing the whole server.  With a
first connection that fails with an IO error and a second well-formed
connection queued, `start_server` returns the error and the second connection
is never served — the claim that it catches, logs and continues accepting is
false at this input. -/
theorem claim_C3_counterexample :
    start_server noOpReceiver
      [.conn [.fail (.io "connection reset by peer")],
       .conn [.frame .NoOp, .frame .EndTransmission]] =
      ([[]], some (.io "connection reset by peer")) := rfl

/-- C3 amended: an accept failure is logged and skipped, but a read/write
failure inside an accepted connection's inner loop ends that connection and
the whole server: `start_server` returns that error and serves no further
connection of the script. -/
theorem claim_C3_conn_error_ends_server
    (perform : ActionMessage → ResponseMessage) (evts : List ReadEvent)
    (rest : List AcceptEvent) (rs : List ResponseMessage) (e : IpcErr)
    (rem : List ReadEvent)
    (h : runConnection perform evts = (rs, .errored e, rem)) :
    start_server perform (.conn evts :: rest) = ([rs], some e) ∧
    start_server perform (.acceptFail :: rest) = start_server perform rest := by
  constructor
  · simp [start_server, h]
  · rfl

/-- Closed witness for the amended C3: one erroring connection followed by a
healthy one; the server returns the error, serving only the first. -/
theorem claim_C3_conn_error_ends_server_witness :
    start_server noOpReceiver
      [.conn [.frame .NoOp, .fail (.serialization "invalid tag encoding")],
       .conn [.frame .EndTransmission]] =
      ([[ResponseMessage.ActionCompleted]],
        some (.serialization "invalid tag encoding")) ∧
    start_server noOpReceiver
      [.acceptFail, .conn [.frame .EndTransmission]] =
      start_server noOpReceiver [.conn [.frame .EndTransmission]] :=
  claim_C3_conn_error_ends_server noOpReceiver
    [.frame .NoOp, .fail (.serialization "invalid tag encoding")]
    [.conn [.frame .EndTransmission]]
    [ResponseMessage.ActionCompleted] (.serialization "invalid tag encoding")
    [] rfl

/-- C5: over one connection, every request frame before `EndTransmission` is
answered by exactly one response frame (`perform` of it, in order), and
`EndTransmission` is answered by exactly `TransmissonEnded`, after which the
inner loop exits leaving every later frame of the connection unread. -/
theorem claim_C5_end_transmission_terminal
    (perform : ActionMessage → ResponseMessage) (pre : List ActionMessage)
    (tail : List ReadEvent)
    (hpre : ∀ a ∈ pre, a ≠ ActionMessage.EndTransmission) :
    runConnection perform
        (pre.map ReadEvent.frame ++ ReadEvent.frame .EndTransmission :: tail) =
      (pre.map perform ++ [ResponseMessage.TransmissonEnded], .ended, tail) := by
  induction pre with
  | nil => simp [runConnection]
  | cons a pre ih =>
    have ha : a ≠ ActionMessage.EndTransmission :=
      hpre a (List.mem_cons_self _ _)
    have ih' := ih fun b hb => hpre b (List.mem_cons_of_mem _ hb)
    simp [runConnection, ha, ih']

/-- Closed witness for C5: two `NoOp`s then `EndTransmission`, with a further
frame queued behind it that is never read. -/
theorem claim_C5_end_transmission_terminal_witness :
    runConnection noOpReceiver
        ([ActionMessage.NoOp, ActionMessage.NoOp].map ReadEvent.frame ++
          ReadEvent.frame .EndTransmission :: [ReadEvent.frame .NoOp]) =
      ([ResponseMessage.ActionCompleted, ResponseMessage.ActionCompleted,
        ResponseMessage.TransmissonEnded], .ended, [ReadEvent.frame .NoOp]) := by
  have h := claim_C5_end_transmission_terminal noOpReceiver
    [ActionMessage.NoOp, ActionMessage.NoOp] [ReadEvent.frame .NoOp]
    (by intro a ha; simp at ha; subst ha; simp)
  simpa [noOpReceiver] using h

end Tara
